import Mathlib

/-!
Verification of the git invocation engine of GitSavvy
(src/core/git_command.py and src/core/utils.py).

The Python source is shallowly embedded: byte strings become `List Nat`,
encodings become their names (`String`), the Python `bytes.decode` builtin
is a parameter `dec` returning `Except ε String` (a `UnicodeDecodeError`
carries a value of the abstract error type `ε`), the filesystem is a record
of probe functions, and the module-level mutable dictionaries become
explicit association-list state threaded through the functions.
-/

namespace GitSavvy

/-- Byte strings (`bytes` in the source). -/
abbrev Bytes := List Nat

/-- An encoding is identified by its name, e.g. `"utf-8"`. -/
abbrev Encoding := String

/-- Result of a Python call that may raise: either a value, a
`UnicodeDecodeError` carrying `ε`, or an `AssertionError`
(the `assert False  # no silent fall-through` line of `try_decode`). -/
inductive PyResult (ε α : Type) where
  | ok : α → PyResult ε α
  | unicodeDecodeError : ε → PyResult ε α
  | assertionError : PyResult ε α
deriving DecidableEq, Repr

/-- Embedding of `_GitCommand.try_decode` (git_command.py:379-387): try each encoding in
order; on `UnicodeDecodeError` re-raise it only when this was the last
candidate (`n == len(encodings)`), i.e. when the rest of the list is empty;
the `assert False` after the loop is reached only on an empty list. -/
def try_decode (dec : Encoding → Bytes → Except ε String) (input : Bytes) :
    List Encoding → PyResult ε (String × Encoding)
  | [] => .assertionError
  | e :: rest =>
    match dec e input with
    | .ok s => .ok (s, e)
    | .error err =>
      if rest.isEmpty then .unicodeDecodeError err else try_decode dec input rest

/-- Embedding of `_GitCommand.get_encoding_candidates` (git_command.py:352-358):
UTF-8 first, then the locale preferred encoding, then the configured
fallback encoding. -/
def get_encoding_candidates (preferred fallback : Encoding) : List Encoding :=
  ["utf-8", preferred, fallback]

/-- Embedding of `_GitCommand.strict_decode` (git_command.py:360-364): run `try_decode`
on the candidate cascade and keep the decoded text. -/
def strict_decode (dec : Encoding → Bytes → Except ε String)
    (preferred fallback : Encoding) (input : Bytes) : PyResult ε String :=
  match try_decode dec input (get_encoding_candidates preferred fallback) with
  | .ok (s, _) => .ok s
  | .unicodeDecodeError e => .unicodeDecodeError e
  | .assertionError => .assertionError

/-- Embedding of `_GitCommand.lax_decode` (git_command.py:372-377): `strict_decode`, but
a `UnicodeDecodeError` is caught and answered with the lossy
`input.decode("utf-8", "replace")`, modelled by the total function
`lossy`. -/
def lax_decode (dec : Encoding → Bytes → Except ε String)
    (preferred fallback : Encoding) (lossy : Bytes → String)
    (input : Bytes) : PyResult ε String :=
  match strict_decode dec preferred fallback input with
  | .ok s => .ok s
  | .unicodeDecodeError _ => .ok (lossy input)
  | .assertionError => .assertionError

/-- Embedding of `_GitCommand.ensure_decoded` (git_command.py:366-370): strings pass
through, byte strings are lax-decoded. -/
def ensure_decoded (dec : Encoding → Bytes → Except ε String)
    (preferred fallback : Encoding) (lossy : Bytes → String)
    (input : String ⊕ Bytes) : PyResult ε String :=
  match input with
  | .inl s => .ok s
  | .inr b => lax_decode dec preferred fallback lossy b

/-- A byte line tagged with its origin, the classes `Out` and `Err` of
git_command.py:81-82. -/
inductive OutputLine where
  | out : Bytes → OutputLine
  | err : Bytes → OutputLine
deriving DecidableEq, Repr

/-- Embedding of `read_linewise` (git_command.py:85-88): a reader thread feeds every line
its stream produces, in stream order, to the continuation; its trace of
appended items is the lines mapped through the tagging continuation. -/
def read_linewise (kont : Bytes → OutputLine) (lines : List Bytes) : List OutputLine :=
  lines.map kont

/-- One concurrent execution of the two reader threads of
`stream_stdout_and_err` (git_command.py:91-110) appending into the shared
FIFO deque: `sched` chooses, whenever both threads still have lines left,
which one appends next; a finished thread can no longer be chosen.  The
deque is FIFO (`append`/`popleft`) and after both futures finish the
generator drains the remainder with `yield from container`, so the yielded
sequence equals this append sequence. -/
def interleave : List Bool → List OutputLine → List OutputLine → List OutputLine
  | _, [], es => es
  | _, o :: os, [] => o :: os
  | b :: sched, o :: os, e :: es =>
    if b then o :: interleave sched os (e :: es) else e :: interleave sched (o :: os) es
  | [], o :: os, e :: es => o :: interleave [] os (e :: es)
termination_by _ os es => os.length + es.length
decreasing_by
  all_goals simp only [List.length_cons]
  all_goals omega

/-- Embedding of `stream_stdout_and_err` (git_command.py:91-110) for a process whose
stdout produces `outLines` and whose stderr produces `errLines`, under the
thread schedule `sched`. -/
def stream_stdout_and_err (sched : List Bool) (outLines errLines : List Bytes) :
    List OutputLine :=
  interleave sched (read_linewise OutputLine.out outLines)
    (read_linewise OutputLine.err errLines)

/-- Projection selecting stdout-tagged lines. -/
def outBytes : OutputLine → Option Bytes
  | .out b => some b
  | .err _ => none

/-- Projection selecting stderr-tagged lines. -/
def errBytes : OutputLine → Option Bytes
  | .err b => some b
  | .out _ => none

/-- The escalating part of the backoff schedule, the literal list in
`chain([1, 2, 4, 8, 15, 30], repeat(50))` (git_command.py:97). -/
def backoff_schedule : List Nat := [1, 2, 4, 8, 15, 30]

/-- The delay iterator `chain([1, 2, 4, 8, 15, 30], repeat(50))` of
git_command.py:97 as an indexed stream: position `n` of the chain of the
finite list and the constant tail of 50. -/
def delay (n : Nat) : Nat := (backoff_schedule.get? n).getD 50

/-- The sleeps taken by the drain loop of git_command.py:100-104: each
iteration either pops a line or, when `popleft` raises `IndexError`
(`true` in `polls`), sleeps for the next element of the `delay` iterator;
`k` is the number of iterator elements consumed so far. -/
def drain_sleeps : List Bool → Nat → List Nat
  | [], _ => []
  | true :: polls, k => delay k :: drain_sleeps polls (k + 1)
  | false :: polls, k => drain_sleeps polls k

/-- Literal placeholder text of git_command.py:328, with the exit code
formatted in. -/
def no_output_message (returncode : Int) : String :=
  "<no output, exit code: " ++ toString returncode ++ ">"

/-- Message of the `GitSavvyError` raised at git_command.py:323-332 for a
non-zero exit when `throw_on_error` is set: the command line, a blank
line, the decoded stdout, then either the no-output placeholder (when both
decoded streams are empty, Python falsiness of `str`) or the decoded
stderr verbatim. -/
def git_error_message (command_str stdout_s stderr_s : String) (returncode : Int) : String :=
  "$ " ++ command_str ++ "\n\n" ++ stdout_s ++
    (if stdout_s = "" ∧ stderr_s = "" then no_output_message returncode else stderr_s)

/-- Decidable substring test: `sub` occurs contiguously in `s`. -/
def str_contains_sub (s sub : String) : Bool :=
  (List.range (s.length + 1)).any fun i => (s.data.drop i).take sub.length == sub.data

/-- Filesystem probes used by the `git_dir` property: `os.path.isfile` and
reading a file's text (`none` models an `OSError`). -/
structure FileSys where
  isfile : String → Bool
  read : String → Option String

/-- Python `str.strip()`: remove leading and trailing whitespace. -/
def py_strip (s : String) : String :=
  String.mk (((s.data.dropWhile Char.isWhitespace).reverse.dropWhile
    Char.isWhitespace).reverse)

/-- Cache-miss body of the `_GitCommand.git_dir` property
(git_command.py:536-548): the git directory is `<repo_path>/.git`, except
when that path is a regular file whose content starts with `"gitdir: "`
(its first 8 characters, `content.startswith`), in which case it is the
stripped remainder `content[8:].strip()` of the content, verbatim; an
`OSError` while reading is swallowed (`pass`). -/
def git_dir_of (fs : FileSys) (repo_path : String) : String :=
  let gitdir := repo_path ++ "/.git"
  if fs.isfile gitdir then
    match fs.read gitdir with
    | some content =>
      if content.take 8 = "gitdir: " then py_strip (content.drop 8) else gitdir
    | none => gitdir
  else gitdir

/-- Embedding of the `_GitCommand.git_dir` property (git_command.py:530-548)
with the module-level `git_dirs` cache (git_command.py:39): answer from
the cache when the repo root is recorded, else compute and record. -/
def git_dir (fs : FileSys) (git_dirs : List (String × String)) (repo_path : String) :
    String × List (String × String) :=
  match git_dirs.lookup repo_path with
  | some v => (v, git_dirs)
  | none =>
    let g := git_dir_of fs repo_path
    (g, (repo_path, g) :: git_dirs)

/-- Embedding of `_GitCommand._find_git_toplevel` (git_command.py:486-497)
with the module-level `repo_paths` cache (git_command.py:38): on a cache
miss run the filesystem probe (`search_for_git_toplevel`); record the
answer only when a repository root was found.  The last component counts
the probe invocations of this call: 0 on a cache hit, 1 on a miss. -/
def find_git_toplevel (probe : String → Option String)
    (repo_paths : List (String × String)) (folder : String) :
    Option String × List (String × String) × Nat :=
  match repo_paths.lookup folder with
  | some path => (some path, repo_paths, 0)
  | none =>
    match probe folder with
    | some repo_path => (some repo_path, (folder, repo_path) :: repo_paths, 1)
    | none => (none, repo_paths, 1)

/-- Constant `MIN_GIT_VERSION` (git_command.py:49). -/
def MIN_GIT_VERSION : Nat × Nat × Nat := (2, 18, 0)

/-- Python tuple comparison `version < MIN_GIT_VERSION` on three-part
versions (lexicographic). -/
def version_lt (v w : Nat × Nat × Nat) : Bool :=
  decide (v.1 < w.1) ||
    (decide (v.1 = w.1) &&
      (decide (v.2.1 < w.2.1) || (decide (v.2.1 = w.2.1) && decide (v.2.2 < w.2.2))))

/-- Module-level mutable state of git_command.py:36-37: the cached
`git_path` and the `error_message_displayed` flag (an empty or unset path
is falsy, hence `Option`). -/
structure GitBinState where
  git_path : Option String
  error_message_displayed : Bool
deriving DecidableEq, Repr

/-- The two one-time user-visible messages `git_binary_path` can show via
`sublime.error_message`. -/
inductive UserMessage where
  | tooOldMsg
  | notFoundMsg
deriving DecidableEq, Repr

/-- Per-call environment of `git_binary_path`: the path that the settings /
`shutil.which` resolution yields (git_command.py:397-406, `none` for a
falsy result) and the version `git_version_from_path` reports for it
(git_command.py:410, `none` when unparsable). -/
structure GitEnv where
  resolved_path : Option String
  version : Option (Nat × Nat × Nat)
deriving DecidableEq, Repr

/-- Outcome of one `git_binary_path` call: the returned path, or the
message of the `ValueError` raised. -/
inductive CallOutcome where
  | ok : String → CallOutcome
  | valueError : String → CallOutcome
deriving DecidableEq, Repr

/-- Not-found tail of `git_binary_path` (git_command.py:423-430): raise
`ValueError`, showing the user-visible message only if none was shown
before. -/
def git_binary_not_found (s : GitBinState) : CallOutcome × GitBinState × List UserMessage :=
  if s.error_message_displayed then
    (.valueError "Git binary not found.", s, [])
  else
    (.valueError "Git binary not found.",
      { s with error_message_displayed := true }, [.notFoundMsg])

/-- One call of the `git_binary_path` property (git_command.py:389-432) in
environment `env`: the outcome, the new module state, and the user-visible
messages displayed during this call. -/
def git_binary_path_step (env : GitEnv) (s : GitBinState) :
    CallOutcome × GitBinState × List UserMessage :=
  match s.git_path with
  | some p => (.ok p, s, [])
  | none =>
    match env.resolved_path with
    | none => git_binary_not_found s
    | some p =>
      match env.version with
      | none => git_binary_not_found s
      | some v =>
        if version_lt v MIN_GIT_VERSION then
          if s.error_message_displayed then
            (.valueError "Git binary too old.",
              { git_path := none, error_message_displayed := true }, [])
          else
            (.valueError "Git binary too old.",
              { git_path := none, error_message_displayed := true }, [.tooOldMsg])
        else
          (.ok p, { s with git_path := some p }, [])

/-- All user-visible messages displayed over a sequence of
`git_binary_path` calls starting from state `s`. -/
def git_binary_path_messages (s : GitBinState) : List GitEnv → List UserMessage
  | [] => []
  | env :: envs =>
    let r := git_binary_path_step env s
    r.2.2 ++ git_binary_path_messages r.2.1 envs

/-- Embedding of `OrderedDict.move_to_end(key)` (used at utils.py:342, 347):
the entry with key `k` moves to the back (most recent end), all others
keep their relative order. -/
def move_to_end {K V : Type} [DecidableEq K] (k : K) (c : List (K × V)) : List (K × V) :=
  (c.filter fun p => decide (p.1 ≠ k)) ++ (c.filter fun p => decide (p.1 = k))

/-- Embedding of `OrderedDict.__setitem__`: replace the value of an existing
key in place, otherwise append a fresh entry at the back. -/
def od_setitem {K V : Type} [DecidableEq K] (c : List (K × V)) (k : K) (v : V) :
    List (K × V) :=
  if (c.lookup k).isSome then
    c.map fun p => if p.1 = k then (k, v) else p
  else c ++ [(k, v)]

/-- Embedding of `Cache.__getitem__` (utils.py:340-343): a successful lookup
moves the key to the most-recent end; a missing key raises `KeyError`
(`none`) and leaves the cache unchanged. -/
def cache_get {K V : Type} [DecidableEq K] (k : K) (c : List (K × V)) :
    Option V × List (K × V) :=
  match c.lookup k with
  | none => (none, c)
  | some v => (some v, move_to_end k c)

/-- Embedding of `Cache.__setitem__` (utils.py:345-350): an existing key is
first moved to the most-recent end, the entry is written, and if the size
now exceeds `maxsize` the least-recent entry is evicted
(`popitem(last=False)`, the front). -/
def cache_set {K V : Type} [DecidableEq K] (maxsize : Nat) (k : K) (v : V)
    (c : List (K × V)) : List (K × V) :=
  let c1 := if (c.lookup k).isSome then move_to_end k c else c
  let c2 := od_setitem c1 k v
  if maxsize < c2.length then c2.tail else c2

/-- One `Cache` operation: `__getitem__` or `__setitem__`. -/
inductive CacheOp (K V : Type) where
  | get : K → CacheOp K V
  | set : K → V → CacheOp K V

/-- Apply one operation to the cache contents. -/
def cache_step {K V : Type} [DecidableEq K] (maxsize : Nat) (c : List (K × V)) :
    CacheOp K V → List (K × V)
  | .get k => (cache_get k c).2
  | .set k v => cache_set maxsize k v c

/-- Run a sequence of operations from the empty cache `Cache(maxsize)`
(utils.py:334-338). -/
def cache_run {K V : Type} [DecidableEq K] (maxsize : Nat)
    (ops : List (CacheOp K V)) : List (K × V) :=
  ops.foldl (cache_step maxsize) []

end GitSavvy

namespace GitSavvy

/-- On the three-element candidate cascade, `strict_decode` is decided by the
three decode attempts; in particular it never reaches the
`assert False` line. -/
theorem strict_decode_cases (dec : Encoding → Bytes → Except ε String)
    (preferred fallback : Encoding) (input : Bytes) :
    strict_decode dec preferred fallback input ≠ .assertionError := by
  unfold strict_decode get_encoding_candidates try_decode
  rcases dec "utf-8" input with s | e₁ <;>
    simp_all only [] <;>
    rcases h₂ : dec preferred input with s | e₂ <;>
    rcases h₃ : dec fallback input with s | e₃ <;>
    simp_all [try_decode]

/-- C1: on the candidate cascade (UTF-8, then the preferred locale encoding,
then the configured fallback), `strict_decode` returns the result of the
first candidate that decodes without error, and when every candidate fails
it propagates the last candidate's `UnicodeDecodeError`. -/
theorem strict_decode_first_candidate_wins
    (dec : Encoding → Bytes → Except ε String)
    (preferred fallback : Encoding) (input : Bytes) :
    (∀ s, dec "utf-8" input = .ok s →
       strict_decode dec preferred fallback input = .ok s)
    ∧ (∀ e₁ s, dec "utf-8" input = .error e₁ → dec preferred input = .ok s →
       strict_decode dec preferred fallback input = .ok s)
    ∧ (∀ e₁ e₂ s, dec "utf-8" input = .error e₁ → dec preferred input = .error e₂ →
       dec fallback input = .ok s →
       strict_decode dec preferred fallback input = .ok s)
    ∧ (∀ e₁ e₂ e₃, dec "utf-8" input = .error e₁ → dec preferred input = .error e₂ →
       dec fallback input = .error e₃ →
       strict_decode dec preferred fallback input = .unicodeDecodeError e₃) := by
  refine ⟨?_, ?_, ?_, ?_⟩ <;> intros <;>
    simp_all [strict_decode, get_encoding_candidates, try_decode]

/-- Witness for C1: a concrete decoder that fails on UTF-8 and succeeds on
the second candidate; `strict_decode` answers with the second candidate. -/
theorem strict_decode_first_candidate_wins_witness :
    strict_decode (fun e _ => if e = "utf-8" then Except.error 0 else Except.ok "ok")
      "latin-1" "cp1252" [255] = PyResult.ok "ok" :=
  (strict_decode_first_candidate_wins
      (fun e _ => if e = "utf-8" then Except.error 0 else Except.ok "ok")
      "latin-1" "cp1252" [255]).2.1 0 "ok" (by simp) (by simp)

/-- C2: `lax_decode` never raises: its result is always `ok`; it agrees with
`strict_decode` whenever some candidate succeeds, and on total failure of
the cascade it answers with the lossy replacement-character decode. -/
theorem lax_decode_never_raises
    (dec : Encoding → Bytes → Except ε String)
    (preferred fallback : Encoding) (lossy : Bytes → String) (input : Bytes) :
    (∃ s, lax_decode dec preferred fallback lossy input = .ok s)
    ∧ (∀ s, strict_decode dec preferred fallback input = .ok s →
        lax_decode dec preferred fallback lossy input = .ok s)
    ∧ (∀ e, strict_decode dec preferred fallback input = .unicodeDecodeError e →
        lax_decode dec preferred fallback lossy input = .ok (lossy input)) := by
  have h := strict_decode_cases dec preferred fallback input
  unfold lax_decode
  rcases hs : strict_decode dec preferred fallback input with s | e | _
  · exact ⟨⟨s, rfl⟩, fun t ht => by simp_all, fun e he => by simp_all⟩
  · exact ⟨⟨lossy input, rfl⟩, fun t ht => by simp_all, fun e he => by simp_all⟩
  · exact absurd hs h

/-- Witness for C2: a decoder failing on every candidate; `lax_decode`
answers with the lossy decode instead of raising. -/
theorem lax_decode_never_raises_witness :
    lax_decode (fun _ _ => (Except.error 3 : Except Nat String))
      "latin-1" "cp1252" (fun _ => "lossy") [255] = PyResult.ok "lossy" :=
  (lax_decode_never_raises (fun _ _ => (Except.error 3 : Except Nat String))
      "latin-1" "cp1252" (fun _ => "lossy") [255]).2.2 3 rfl

/-- The interleaving of the two append traces has one element per appended
line. -/
theorem interleave_length (sched : List Bool) (os es : List OutputLine) :
    (interleave sched os es).length = os.length + es.length := by
  induction sched, os, es using interleave.induct with
  | case1 => simp [interleave]
  | case2 => simp [interleave]
  | case3 sched o os e es ih => simp [interleave, ih]; omega
  | case4 b sched o os e es hb ih =>
    rw [Bool.not_eq_true] at hb
    subst hb
    simp [interleave, ih]; omega
  | case5 o os e es ih => simp [interleave, ih]; omega

/-- Lines from the second trace do not contribute to the `outBytes`
projection of the interleaving when none of them is stdout-tagged. -/
theorem interleave_filterMap_of_none (sched : List Bool) (os es : List OutputLine)
    (h : ∀ x ∈ es, outBytes x = none) :
    (interleave sched os es).filterMap outBytes = os.filterMap outBytes := by
  induction sched, os, es using interleave.induct with
  | case1 es => simp [interleave, List.filterMap_eq_nil_iff.2 h]
  | case2 => simp [interleave]
  | case3 sched o os e es ih =>
    simp_all [interleave, List.filterMap_cons]
  | case4 b sched o os e es hb ih =>
    rw [Bool.not_eq_true] at hb
    subst hb
    have he : outBytes e = none := h e (by simp)
    have ht : ∀ x ∈ es, outBytes x = none := fun x hx => h x (by simp [hx])
    simp_all [interleave, List.filterMap_cons]
  | case5 o os e es ih => simp_all [interleave, List.filterMap_cons]

/-- Mirror image for the `errBytes` projection. -/
theorem interleave_filterMap_of_none_err (sched : List Bool) (os es : List OutputLine)
    (h : ∀ x ∈ os, errBytes x = none) :
    (interleave sched os es).filterMap errBytes = es.filterMap errBytes := by
  induction sched, os, es using interleave.induct with
  | case1 es => simp [interleave]
  | case2 o os =>
    simp [interleave, List.filterMap_eq_nil_iff.2 h]
  | case3 sched o os e es ih =>
    have ho : errBytes o = none := h o (by simp)
    have ht : ∀ x ∈ os, errBytes x = none := fun x hx => h x (by simp [hx])
    simp_all [interleave, List.filterMap_cons]
  | case4 b sched o os e es hb ih =>
    rw [Bool.not_eq_true] at hb
    subst hb
    simp_all [interleave, List.filterMap_cons]
  | case5 o os e es ih =>
    have ho : errBytes o = none := h o (by simp)
    have ht : ∀ x ∈ os, errBytes x = none := fun x hx => h x (by simp [hx])
    simp_all [interleave, List.filterMap_cons]

/-- C3: however the two reader threads are scheduled, the interleaved drain
yields exactly one line per produced line (N in total), each tagged with
its true origin, and restricted to either origin the yielded lines are the
very lines that stream produced, in the same order; only the relative
order between the two origins depends on the schedule. -/
theorem stream_stdout_and_err_complete (sched : List Bool) (outs errs : List Bytes) :
    (stream_stdout_and_err sched outs errs).length = outs.length + errs.length
    ∧ (stream_stdout_and_err sched outs errs).filterMap outBytes = outs
    ∧ (stream_stdout_and_err sched outs errs).filterMap errBytes = errs := by
  refine ⟨?_, ?_, ?_⟩
  · simp [stream_stdout_and_err, interleave_length, read_linewise]
  · rw [stream_stdout_and_err,
      interleave_filterMap_of_none _ _ _ (by simp [read_linewise, errBytes, outBytes])]
    rw [read_linewise, List.filterMap_map,
      show outBytes ∘ OutputLine.out = some from funext fun x => rfl,
      List.filterMap_some]
  · rw [stream_stdout_and_err,
      interleave_filterMap_of_none_err _ _ _ (by simp [read_linewise, errBytes, outBytes])]
    rw [read_linewise, List.filterMap_map,
      show errBytes ∘ OutputLine.err = some from funext fun x => rfl,
      List.filterMap_some]

/-- The cumulated sleeps: one `delay` element per empty poll, consumed in
order from position `k` on. -/
theorem drain_sleeps_eq (polls : List Bool) (k : Nat) :
    drain_sleeps polls k = (List.range (polls.count true)).map (fun i => delay (k + i)) := by
  induction polls generalizing k with
  | nil => simp [drain_sleeps]
  | cons b polls ih =>
    cases b
    · have h1 : drain_sleeps (false :: polls) k = drain_sleeps polls k := rfl
      have h2 : (false :: polls).count true = polls.count true := by simp
      rw [h1, h2, ih k]
    · have h1 : drain_sleeps (true :: polls) k = delay k :: drain_sleeps polls (k + 1) := rfl
      have h2 : (true :: polls).count true = polls.count true + 1 := by simp
      rw [h1, h2, ih (k + 1), List.range_succ_eq_map, List.map_cons, List.map_map]
      refine congrArg₂ _ (by simp) (List.map_congr_left ?_)
      intro i _
      simp only [Function.comp_apply, Nat.succ_eq_add_one]
      congr 1
      omega

/-- C5: within one drain, the successive sleep delays on empty polls follow
exactly the escalating schedule 1, 2, 4, 8, 15, 30 milliseconds and then a
steady 50 milliseconds for every later empty poll, consumed as one
restartable indexed sequence across the whole loop rather than a fixed
sleep. -/
theorem drain_backoff_schedule (polls : List Bool) :
    drain_sleeps polls 0 = (List.range (polls.count true)).map delay
    ∧ delay 0 = 1 ∧ delay 1 = 2 ∧ delay 2 = 4 ∧ delay 3 = 8
    ∧ delay 4 = 15 ∧ delay 5 = 30 ∧ ∀ n, delay (n + 6) = 50 := by
  refine ⟨by simpa using drain_sleeps_eq polls 0, rfl, rfl, rfl, rfl, rfl, rfl, ?_⟩
  intro n
  have h : backoff_schedule[n + 6]? = none := by
    apply List.getElem?_eq_none
    simp [backoff_schedule]
  simp [delay, h]

/-- Counterexample to C6 as stated: the raised message can contain the
no-output placeholder even though stderr is non-empty, namely when the
stderr text itself contains the placeholder; so "contains the literal
exactly when both streams are empty" does not hold. -/
theorem git_error_message_placeholder_not_iff :
    ("<no output, exit code: 7>" : String) ≠ ""
    ∧ str_contains_sub
        (git_error_message "status" "" "<no output, exit code: 7>" 7)
        (no_output_message 7) = true := by
  refine ⟨by decide, ?_⟩
  rfl

/-- C6 amended: with both decoded streams empty, the raised message is the
command line followed by the no-output placeholder carrying the exit code
(hence contains that literal); with either stream non-empty, the message
is the command line, the stdout text, then the stderr text verbatim — so
it contains the placeholder only if a stream itself contains it. -/
theorem git_error_message_spec (command_str stdout_s stderr_s : String) (returncode : Int) :
    (stdout_s = "" → stderr_s = "" →
      git_error_message command_str stdout_s stderr_s returncode
        = "$ " ++ command_str ++ "\n\n" ++ stdout_s ++ no_output_message returncode)
    ∧ (¬ (stdout_s = "" ∧ stderr_s = "") →
      git_error_message command_str stdout_s stderr_s returncode
        = "$ " ++ command_str ++ "\n\n" ++ stdout_s ++ stderr_s) := by
  constructor
  · intro h1 h2
    simp [git_error_message, h1, h2]
  · intro h
    simp only [git_error_message]
    rw [if_neg h]

/-- Witness for C6 amended: both streams empty, exit code 9. -/
theorem git_error_message_spec_witness :
    git_error_message "status" "" "" 9
      = "$ " ++ "status" ++ "\n\n" ++ "" ++ no_output_message 9 :=
  (git_error_message_spec "status" "" "" 9).1 rfl rfl

/-- C7: on a cache miss, a repo root whose `.git` entry is a regular file
with content starting with `"gitdir: "` resolves to the trimmed remainder
of the content, verbatim (a relative target such as
`"../../modules/foo"` is kept unchanged, to be interpreted relative to the
repo root); a `.git` entry that is not such a file resolves to
`<repoRoot>/.git` itself; the result is recorded per repo root and every
later call for that root answers from the cache. -/
theorem git_dir_resolution (fs : FileSys) (cache : List (String × String))
    (repo_path : String) :
    (∀ content, cache.lookup repo_path = none →
      fs.isfile (repo_path ++ "/.git") = true →
      fs.read (repo_path ++ "/.git") = some content →
      content.take 8 = "gitdir: " →
      git_dir fs cache repo_path
        = (py_strip (content.drop 8), (repo_path, py_strip (content.drop 8)) :: cache))
    ∧ (∀ content, cache.lookup repo_path = none →
      fs.isfile (repo_path ++ "/.git") = true →
      fs.read (repo_path ++ "/.git") = some content →
      content.take 8 ≠ "gitdir: " →
      (git_dir fs cache repo_path).1 = repo_path ++ "/.git")
    ∧ (cache.lookup repo_path = none →
      fs.isfile (repo_path ++ "/.git") = false →
      (git_dir fs cache repo_path).1 = repo_path ++ "/.git")
    ∧ (cache.lookup repo_path = none →
      fs.isfile (repo_path ++ "/.git") = true →
      fs.read (repo_path ++ "/.git") = none →
      (git_dir fs cache repo_path).1 = repo_path ++ "/.git")
    ∧ (∀ v, cache.lookup repo_path = some v →
      git_dir fs cache repo_path = (v, cache))
    ∧ (∀ fs2, (git_dir fs2 (git_dir fs cache repo_path).2 repo_path).1
        = (git_dir fs cache repo_path).1) := by
  refine ⟨?_, ?_, ?_, ?_, ?_, ?_⟩
  · intro content hc hf hr hs
    simp [git_dir, git_dir_of, hc, hf, hr, hs]
  · intro content hc hf hr hs
    simp [git_dir, git_dir_of, hc, hf, hr, hs]
  · intro hc hf
    simp [git_dir, git_dir_of, hc, hf]
  · intro hc hf hr
    simp [git_dir, git_dir_of, hc, hf, hr]
  · intro v hc
    simp [git_dir, hc]
  · intro fs2
    rcases hc : cache.lookup repo_path with _ | v
    · simp [git_dir, hc]
    · simp [git_dir, hc]

/-- Witness for C7: a `.git` regular file holding
`"gitdir: ../../modules/foo\n"`. -/
theorem git_dir_resolution_witness :
    git_dir
      (FileSys.mk (fun p => p == "/repo/.git")
        (fun _ => some "gitdir: ../../modules/foo\n"))
      [] "/repo"
      = ("../../modules/foo", [("/repo", "../../modules/foo")]) := by
  have h :=
    (git_dir_resolution
      (FileSys.mk (fun p => p == "/repo/.git")
        (fun _ => some "gitdir: ../../modules/foo\n"))
      [] "/repo").1 "gitdir: ../../modules/foo\n" rfl rfl rfl (by decide)
  rw [h]
  decide

/-- Counterexample to C8 as stated: a first lookup that finds no repository
root is not recorded in the cache, so the second lookup for the same
folder probes the filesystem again (probe count 1, not 0). -/
theorem find_git_toplevel_reprobes_on_failure :
    (find_git_toplevel (fun _ => none)
      (find_git_toplevel (fun _ => none) [] "/some/folder").2.1
      "/some/folder").2.2 ≠ 0 := by
  decide

/-- C8 amended: for a starting folder whose first lookup finds a repository
root, the result is cached and a second lookup for the same folder is
answered from the cache with no filesystem probing; a lookup that finds no
root leaves the cache unchanged (and is probed again later). -/
theorem find_git_toplevel_caches_success (probe : String → Option String)
    (cache : List (String × String)) (folder : String) (r : String) :
    (cache.lookup folder = none → probe folder = some r →
      find_git_toplevel probe cache folder = (some r, (folder, r) :: cache, 1)
      ∧ find_git_toplevel probe ((folder, r) :: cache) folder
          = (some r, (folder, r) :: cache, 0))
    ∧ (cache.lookup folder = none → probe folder = none →
      find_git_toplevel probe cache folder = (none, cache, 1)) := by
  constructor
  · intro hc hp
    constructor
    · simp [find_git_toplevel, hc, hp]
    · simp [find_git_toplevel]
  · intro hc hp
    simp [find_git_toplevel, hc, hp]

/-- Witness for C8 amended: a probe finding `/repo` for folder `/f`. -/
theorem find_git_toplevel_caches_success_witness :
    find_git_toplevel (fun _ => some "/repo") [] "/f" = (some "/repo", [("/f", "/repo")], 1)
    ∧ find_git_toplevel (fun _ => some "/repo") [("/f", "/repo")] "/f"
        = (some "/repo", [("/f", "/repo")], 0) :=
  (find_git_toplevel_caches_success (fun _ => some "/repo") [] "/f" "/repo").1 rfl rfl

/-- Per-call behaviour of the display flag: one call shows at most one
message, shows none when the flag is already set, sets the flag whenever
it shows one, and never clears a set flag. -/
theorem git_binary_path_step_flag (env : GitEnv) (s : GitBinState) :
    (s.error_message_displayed = true → (git_binary_path_step env s).2.2 = [])
    ∧ ((git_binary_path_step env s).2.2 ≠ [] →
        (git_binary_path_step env s).2.1.error_message_displayed = true)
    ∧ (git_binary_path_step env s).2.2.length ≤ 1
    ∧ (s.error_message_displayed = true →
        (git_binary_path_step env s).2.1.error_message_displayed = true) := by
  rcases s with ⟨gp, flag⟩
  rcases gp with _ | p
  · rcases env with ⟨rp, ver⟩
    rcases rp with _ | p
    · cases flag <;> simp [git_binary_path_step, git_binary_not_found]
    · rcases ver with _ | v
      · cases flag <;> simp [git_binary_path_step, git_binary_not_found]
      · by_cases hv : version_lt v MIN_GIT_VERSION <;> cases flag <;>
          simp [git_binary_path_step, git_binary_not_found, hv]
  · simp [git_binary_path_step]

/-- C9: across any sequence of `git_binary_path` calls, at most one
user-visible message is displayed in total, so the binary-not-found
message and the version-too-old message are each displayed at most once;
once the flag is set every further call displays nothing (although a call
without a usable binary still raises `ValueError`). -/
theorem git_binary_path_messages_once (envs : List GitEnv) (s : GitBinState) :
    (git_binary_path_messages s envs).length ≤ 1
    ∧ (git_binary_path_messages s envs).count UserMessage.tooOldMsg ≤ 1
    ∧ (git_binary_path_messages s envs).count UserMessage.notFoundMsg ≤ 1
    ∧ (s.error_message_displayed = true → git_binary_path_messages s envs = [])
    ∧ (∀ env, s.error_message_displayed = true → s.git_path = none →
        env.resolved_path = none →
        git_binary_path_step env s = (.valueError "Git binary not found.", s, [])) := by
  have key : ∀ (envs : List GitEnv) (s : GitBinState),
      (git_binary_path_messages s envs).length ≤ 1
      ∧ (s.error_message_displayed = true → git_binary_path_messages s envs = []) := by
    intro envs
    induction envs with
    | nil => intro s; simp [git_binary_path_messages]
    | cons env envs ih =>
      intro s
      have hstep := git_binary_path_step_flag env s
      have hmsgs : git_binary_path_messages s (env :: envs)
          = (git_binary_path_step env s).2.2
            ++ git_binary_path_messages (git_binary_path_step env s).2.1 envs := rfl
      constructor
      · rw [hmsgs]
        by_cases hemp : (git_binary_path_step env s).2.2 = []
        · rw [hemp]
          simpa using (ih (git_binary_path_step env s).2.1).1
        · have hflag := hstep.2.1 hemp
          have hrec := (ih (git_binary_path_step env s).2.1).2 hflag
          rw [hrec]
          simpa using hstep.2.2.1
      · intro hdisp
        rw [hmsgs, hstep.1 hdisp,
          (ih (git_binary_path_step env s).2.1).2 (hstep.2.2.2 hdisp)]
        rfl

  refine ⟨(key envs s).1, ?_, ?_, (key envs s).2, ?_⟩
  · exact le_trans (List.count_le_length _ _) (key envs s).1
  · exact le_trans (List.count_le_length _ _) (key envs s).1
  · intro env hdisp hgp hrp
    rcases s with ⟨gp, flag⟩
    rcases env with ⟨rp, ver⟩
    simp only at hdisp hgp hrp
    subst hdisp hgp hrp
    simp [git_binary_path_step, git_binary_not_found]

/-- Witness for C9: with the flag already set, a call that fails to resolve
a binary raises but displays nothing. -/
theorem git_binary_path_messages_once_witness :
    git_binary_path_messages (GitBinState.mk none true) [GitEnv.mk none none] = [] :=
  (git_binary_path_messages_once [GitEnv.mk none none] (GitBinState.mk none true)).2.2.2.1 rfl

/-- Moving an entry to the most-recent end permutes the cache contents. -/
theorem move_to_end_perm {K V : Type} [DecidableEq K] (k : K) (c : List (K × V)) :
    (move_to_end k c).Perm c := by
  unfold move_to_end
  have h2 : (c.filter fun p => decide (p.1 = k))
      = c.filter fun p => !(decide (p.1 ≠ k)) :=
    List.filter_congr fun a _ => by simp
  rw [h2]
  exact List.filter_append_perm _ c

/-- Moving an entry to the most-recent end preserves the size. -/
theorem move_to_end_length {K V : Type} [DecidableEq K] (k : K) (c : List (K × V)) :
    (move_to_end k c).length = c.length :=
  (move_to_end_perm k c).length_eq

/-- A get never changes the size of the cache. -/
theorem cache_get_length {K V : Type} [DecidableEq K] (k : K) (c : List (K × V)) :
    (cache_get k c).2.length = c.length := by
  unfold cache_get
  rcases h : c.lookup k with _ | v
  · rfl
  · simp [move_to_end_length]

/-- A dict write grows the store by at most one entry. -/
theorem od_setitem_length {K V : Type} [DecidableEq K] (c : List (K × V)) (k : K) (v : V) :
    (od_setitem c k v).length ≤ c.length + 1 := by
  unfold od_setitem
  split
  · simp
  · simp

/-- A set keeps the cache within `maxsize` once it is within `maxsize`. -/
theorem cache_set_length {K V : Type} [DecidableEq K] (m : Nat) (k : K) (v : V)
    (c : List (K × V)) (h : c.length ≤ m) : (cache_set m k v c).length ≤ m := by
  have key : ∀ c1 : List (K × V), c1.length = c.length →
      (if m < (od_setitem c1 k v).length then (od_setitem c1 k v).tail
        else od_setitem c1 k v).length ≤ m := by
    intro c1 hc1
    have h3 := od_setitem_length c1 k v
    split
    · rw [List.length_tail]
      omega
    · omega
  show (if m < (od_setitem (if (c.lookup k).isSome then move_to_end k c else c) k v).length
      then (od_setitem (if (c.lookup k).isSome then move_to_end k c else c) k v).tail
      else od_setitem (if (c.lookup k).isSome then move_to_end k c else c) k v).length ≤ m
  apply key
  split
  · exact move_to_end_length k c
  · rfl

/-- A single operation keeps the cache within `maxsize`. -/
theorem cache_step_length {K V : Type} [DecidableEq K] (m : Nat) (c : List (K × V))
    (op : CacheOp K V) (h : c.length ≤ m) : (cache_step m c op).length ≤ m := by
  cases op with
  | get k =>
    show (cache_get k c).2.length ≤ m
    rw [cache_get_length]
    exact h
  | set k v => exact cache_set_length m k v c h

/-- Any operation sequence from the empty cache stays within `maxsize`. -/
theorem cache_run_length {K V : Type} [DecidableEq K] (m : Nat)
    (ops : List (CacheOp K V)) : (cache_run m ops).length ≤ m := by
  suffices h : ∀ (c : List (K × V)), c.length ≤ m → (ops.foldl (cache_step m) c).length ≤ m by
    exact h [] (by simp)
  induction ops with
  | nil =>
    intro c hc
    simpa using hc
  | cons op ops ih =>
    intro c hc
    exact ih _ (cache_step_length m c op hc)

/-- With distinct keys, the entries whose key is `k` are exactly the looked-up
one. -/
theorem filter_eq_key_of_lookup {K V : Type} [DecidableEq K] (c : List (K × V)) (k : K)
    (v : V) (hnd : (c.map Prod.fst).Nodup) (h : c.lookup k = some v) :
    (c.filter fun p => decide (p.1 = k)) = [(k, v)] := by
  induction c with
  | nil => simp at h
  | cons p c ih =>
    rcases p with ⟨a, b⟩
    rw [List.map_cons, List.nodup_cons] at hnd
    by_cases hk : a = k
    · subst hk
      rw [List.lookup_cons] at h
      simp only [beq_self_eq_true] at h
      have hb : b = v := by simpa using h
      subst hb
      have hnone : (c.filter fun p => decide (p.1 = a)) = [] := by
        rw [List.filter_eq_nil_iff]
        intro q hq
        have : q.1 ∈ c.map Prod.fst := List.mem_map_of_mem Prod.fst hq
        simp only [decide_eq_true_eq]
        intro hqa
        exact hnd.1 (hqa ▸ this)
      simp [List.filter_cons, hnone]
    · have hne : (k == a) = false := beq_eq_false_iff_ne.2 (Ne.symm hk)
      rw [List.lookup_cons] at h
      simp only [hne] at h
      have := ih hnd.2 h
      simp [List.filter_cons, hk, this]

/-- Looking up a key absent from the first part of an append falls through to
the second part. -/
theorem lookup_append_right {K V : Type} [DecidableEq K] (l1 l2 : List (K × V)) (k : K)
    (h : ∀ p ∈ l1, p.1 ≠ k) : (l1 ++ l2).lookup k = l2.lookup k := by
  induction l1 with
  | nil => rfl
  | cons p l1 ih =>
    rcases p with ⟨a, b⟩
    have ha : a ≠ k := h (a, b) (by simp)
    have hne : (k == a) = false := beq_eq_false_iff_ne.2 (Ne.symm ha)
    rw [List.cons_append, List.lookup_cons]
    simp only [hne]
    exact ih fun q hq => h q (by simp [hq])

/-- Unfolding of `cache_set` with the intermediate stores named. -/
theorem cache_set_eq {K V : Type} [DecidableEq K] (m : Nat) (k : K) (v : V)
    (c : List (K × V)) :
    cache_set m k v c
      = if m < (od_setitem (if (c.lookup k).isSome then move_to_end k c else c) k v).length
        then (od_setitem (if (c.lookup k).isSome then move_to_end k c else c) k v).tail
        else od_setitem (if (c.lookup k).isSome then move_to_end k c else c) k v := rfl

/-- C10: starting from the empty cache, a `Cache(maxsize)` never holds more
than `maxsize` entries under any sequence of get/set operations; setting a
fresh key while full evicts exactly the least-recently-used entry (the
front); and both a successful get and a set of an existing key move that
key to the most-recently-used end (with the other entries kept in
order). -/
theorem cache_lru_spec {K V : Type} [DecidableEq K] (m : Nat) (hm : 0 < m) :
    (∀ ops : List (CacheOp K V), (cache_run m ops).length ≤ m)
    ∧ (∀ (c : List (K × V)) (k : K) (v : V), c.length = m → c.lookup k = none →
        cache_set m k v c = c.tail ++ [(k, v)])
    ∧ (∀ (c : List (K × V)) (k : K) (v : V), (c.map Prod.fst).Nodup →
        c.lookup k = some v →
        (cache_get k c).2 = (c.filter fun p => decide (p.1 ≠ k)) ++ [(k, v)])
    ∧ (∀ (c : List (K × V)) (k : K) (v w : V), (c.map Prod.fst).Nodup →
        c.lookup k = some w → c.length ≤ m →
        cache_set m k v c = (c.filter fun p => decide (p.1 ≠ k)) ++ [(k, v)]) := by
  refine ⟨fun ops => cache_run_length m ops, ?_, ?_, ?_⟩
  · intro c k v hlen hlook
    have hc1 : (if (c.lookup k).isSome then move_to_end k c else c) = c := by
      rw [hlook]
      rfl
    have hset : od_setitem c k v = c ++ [(k, v)] := by
      unfold od_setitem
      rw [hlook]
      rfl
    rw [cache_set_eq, hc1, hset]
    have hlt : m < (c ++ [(k, v)]).length := by
      simp [hlen]
    rw [if_pos hlt]
    rcases c with _ | ⟨p, c⟩
    · simp at hlen
      omega
    · rfl
  · intro c k v hnd hlook
    have h1 : cache_get k c = (some v, move_to_end k c) := by
      unfold cache_get
      rw [hlook]
    rw [h1]
    show move_to_end k c = _
    unfold move_to_end
    rw [filter_eq_key_of_lookup c k v hnd hlook]
  · intro c k v w hnd hlook hlen
    have hmove : move_to_end k c = (c.filter fun p => decide (p.1 ≠ k)) ++ [(k, w)] := by
      unfold move_to_end
      rw [filter_eq_key_of_lookup c k w hnd hlook]
    have hc1 : (if (c.lookup k).isSome then move_to_end k c else c) = move_to_end k c := by
      rw [hlook]
      rfl
    have hnokey : ∀ p ∈ (c.filter fun p => decide (p.1 ≠ k)), p.1 ≠ k := by
      intro p hp
      have hm2 := (List.mem_filter.1 hp).2
      simpa using hm2
    have hlook1 : (move_to_end k c).lookup k = some w := by
      rw [hmove, lookup_append_right _ _ k hnokey, List.lookup_cons]
      simp
    have hid : ((c.filter fun p => decide (p.1 ≠ k)).map
        fun p => if p.1 = k then (k, v) else p) = c.filter fun p => decide (p.1 ≠ k) := by
      have hstep : ∀ p ∈ (c.filter fun q => decide (q.1 ≠ k)),
          (if p.1 = k then (k, v) else p) = id p := by
        intro p hp
        simp [hnokey p hp]
      rw [List.map_congr_left hstep, List.map_id]
    have hset : od_setitem (move_to_end k c) k v
        = (c.filter fun p => decide (p.1 ≠ k)) ++ [(k, v)] := by
      unfold od_setitem
      rw [hlook1]
      simp only [Option.isSome_some, if_true]
      rw [hmove, List.map_append, hid]
      simp
    rw [cache_set_eq, hc1, hset]
    have hflen : ((c.filter fun p => decide (p.1 ≠ k)) ++ [(k, v)]).length = c.length := by
      have h4 := move_to_end_length k c
      rw [hmove] at h4
      simpa using h4
    have hcond : ¬ (m < ((c.filter fun p => decide (p.1 ≠ k)) ++ [(k, v)]).length) := by
      omega
    rw [if_neg hcond]

/-- Witness for C10: with `maxsize = 2`, three insertions stay within two
entries, and inserting key 3 into the full cache `[(1, 10), (2, 20)]`
evicts the least-recently-used entry `(1, 10)`. -/
theorem cache_lru_spec_witness :
    (cache_run 2 [CacheOp.set 1 10, CacheOp.set 2 20, CacheOp.set 3 30]
        : List (Nat × Nat)).length ≤ 2
    ∧ cache_set 2 3 (30 : Nat) [((1 : Nat), (10 : Nat)), (2, 20)] = [(2, 20), (3, 30)] := by
  have h := cache_lru_spec (K := Nat) (V := Nat) 2 (by decide)
  refine ⟨h.1 _, ?_⟩
  have h2 := h.2.1 [(1, 10), (2, 20)] 3 30 rfl rfl
  simpa using h2

end GitSavvy
